import Mathlib

/-!
# Organizer: media files sorted into capture-date buckets

A shallow embedding of `main.go` and `exif.go`.

* Go strings are lists of Unicode code points (`List Char`), i.e. valid UTF-8
  strings; byte-wise comparison of valid UTF-8 is code point comparison.
* The Go standard library functions the program calls (`strings.ToLower`,
  `strings.TrimPrefix`, `strings.ReplaceAll`, `filepath.Ext`, `filepath.Clean`,
  `filepath.Join`, `time.Parse`, `Time.Format`) are embedded after their Go
  implementations for Unix. The Unicode case table of `unicode.ToLower`
  (non-ASCII runes) is a parameter `tbl`.
* A `time.Time` is its civil reading in its own location, plus the UTC offset
  of that location at that instant; that is what `Format` prints and what
  `Parse` builds.
* The EXIF library is embedded at its interface: one `VisitedTag` holds what
  the library calls of the visitor return for that tag, and `Visit` is the
  traversal, which resolves each value before it calls the visitor.
-/

namespace Organizer

/-! ## package strings -/

namespace strings

/-- Go `strings.HasPrefix`. -/
def HasPrefix : List Char → List Char → Bool
  | _, [] => true
  | [], _ :: _ => false
  | c :: s, p :: ps => c == p && HasPrefix s ps

/-- Go `strings.TrimPrefix`: `s` without the leading `pre`, or `s` unchanged. -/
def TrimPrefix (s pre : List Char) : List Char :=
  if HasPrefix s pre then s.drop pre.length else s

/-- ASCII branch of lowering: `c += 'a' - 'A'` when `'A' <= c <= 'Z'`. -/
def lowerASCII (c : Char) : Char :=
  if 65 ≤ c.toNat ∧ c.toNat ≤ 90 then Char.ofNat (c.toNat + 32) else c

/-- Go `unicode.ToLower`: ASCII runes are lowered arithmetically, every other
rune through the Unicode case table `tbl`. -/
def unicodeToLower (tbl : Char → Char) (r : Char) : Char :=
  if r.toNat ≤ 127 then lowerASCII r else tbl r

/-- Go `strings.ToLower`: an all-ASCII string takes the byte loop, any other
string is mapped rune by rune with `unicode.ToLower`. -/
def ToLower (tbl : Char → Char) (s : List Char) : List Char :=
  if s.all (fun c => decide (c.toNat < 128)) then s.map lowerASCII
  else s.map (unicodeToLower tbl)

/-- Loop of Go `strings.ReplaceAll` for a non-empty `old`: scan left to right,
replace each non-overlapping occurrence. `fuel` bounds the scan. -/
def replaceLoop (old new : List Char) : Nat → List Char → List Char
  | 0, s => s
  | _ + 1, [] => []
  | fuel + 1, c :: cs =>
    if HasPrefix (c :: cs) old then new ++ replaceLoop old new fuel ((c :: cs).drop old.length)
    else c :: replaceLoop old new fuel cs

/-- Go `strings.ReplaceAll(s, old, new)` for a non-empty `old` (the program
calls it with `old = "_"`). -/
def ReplaceAll (s old new : List Char) : List Char :=
  replaceLoop old new s.length s

/-- Go string comparison `a < b`. -/
def Less : List Char → List Char → Bool
  | [], [] => false
  | [], _ :: _ => true
  | _ :: _, [] => false
  | a :: as, b :: bs =>
    if a.toNat < b.toNat then true
    else if b.toNat < a.toNat then false
    else Less as bs

end strings

/-! ## package path/filepath (Unix) -/

namespace filepath

/-- Backward scan of Go `filepath.Ext` over the reversed path; `acc` holds the
bytes already passed, in path order. -/
def extLoop : List Char → List Char → List Char
  | [], _ => []
  | c :: rest, acc =>
    if c = '/' then []
    else if c = '.' then '.' :: acc
    else extLoop rest (c :: acc)

/-- Go `filepath.Ext`: the suffix beginning at the final dot of the final
element of `path`; empty if there is no dot. -/
def Ext (path : List Char) : List Char :=
  extLoop path.reverse []

/-- State of the loop of `filepath.Clean`: the output buffer (`out`, its
length is Go's `out.w`) and the index `dotdot` where `..` must stop. -/
structure CleanState where
  out : List Char
  dotdot : Nat

/-- Back up the output buffer over one element: `out.w--`, then while
`out.w > dotdot` and the byte at index `out.w` (the one just dropped) is not a
separator, `out.w--` again. The buffer is given reversed, last byte first. -/
def backtrack (dotdot : Nat) : List Char → List Char
  | [] => []
  | c :: rest =>
    if rest.length > dotdot ∧ c ≠ '/' then backtrack dotdot rest else rest

/-- One `..` element of `filepath.Clean`. -/
def cleanDotDot (rooted : Bool) (st : CleanState) : CleanState :=
  if st.out.length > st.dotdot then
    { st with out := (backtrack st.dotdot st.out.reverse).reverse }
  else if !rooted then
    let out := (if st.out.length > 0 then st.out ++ ['/'] else st.out) ++ ['.', '.']
    { out := out, dotdot := out.length }
  else st

/-- Main loop of Go `filepath.Clean`, reading the rest of the path. -/
def cleanLoop (rooted : Bool) : Nat → List Char → CleanState → CleanState
  | 0, _, st => st
  | _ + 1, [], st => st
  | fuel + 1, c :: rest, st =>
    if c = '/' then cleanLoop rooted fuel rest st
    else if c = '.' ∧ (rest = [] ∨ rest.head? = some '/') then cleanLoop rooted fuel rest st
    else if c = '.' ∧ rest.head? = some '.' ∧
        (rest.drop 1 = [] ∨ (rest.drop 1).head? = some '/') then
      cleanLoop rooted fuel (rest.drop 1) (cleanDotDot rooted st)
    else
      let sep : List Char :=
        if (rooted ∧ st.out.length ≠ 1) ∨ (¬ rooted ∧ st.out.length ≠ 0) then ['/'] else []
      let elem := (c :: rest).takeWhile (fun x => x ≠ '/')
      cleanLoop rooted fuel ((c :: rest).dropWhile (fun x => x ≠ '/'))
        { st with out := st.out ++ sep ++ elem }

/-- Go `filepath.Clean` on Unix (no volume name). -/
def Clean (path : List Char) : List Char :=
  match path with
  | [] => ['.']
  | c :: rest =>
    let rooted := decide (c = '/')
    let st0 : CleanState := if rooted then { out := ['/'], dotdot := 1 } else { out := [], dotdot := 0 }
    let st := cleanLoop rooted path.length (if rooted then rest else c :: rest) st0
    if st.out.length = 0 then ['.'] else st.out

/-- Go `strings.Join(elems, "/")`. -/
def joinSep : List (List Char) → List Char
  | [] => []
  | [e] => e
  | e :: es => e ++ '/' :: joinSep es

/-- Go `filepath.Join`: drop leading empty elements, join the rest with the
separator, `Clean` the result; all elements empty gives the empty string. -/
def Join : List (List Char) → List Char
  | [] => []
  | e :: es => if e = [] then Join es else Clean (joinSep (e :: es))

end filepath

/-! ## package time -/

namespace time

/-- A `time.Time`: the civil date and clock reading in the value's own
location, the nanoseconds within the second, and `offset`, the seconds east of
UTC of that location at this instant (0 for UTC). -/
structure Time where
  year : Int
  month : Nat
  day : Nat
  hour : Nat
  minute : Nat
  second : Nat
  nsec : Nat
  offset : Int
  deriving DecidableEq, Repr

/-- Go `time.isLeap`. -/
def isLeap (year : Int) : Bool :=
  decide (year % 4 = 0 ∧ (year % 100 ≠ 0 ∨ year % 400 = 0))

/-- Go `time.daysBefore`: days in a non-leap year before month `m + 1`. -/
def daysBefore (m : Nat) : Nat :=
  [0, 31, 59, 90, 120, 151, 181, 212, 243, 273, 304, 334, 365].getD m 0

/-- Go `time.daysIn`. -/
def daysIn (m : Nat) (year : Int) : Nat :=
  if m = 2 ∧ isLeap year then 29 else daysBefore m - daysBefore (m - 1)

/-- The fields of a well-formed `Time`, as every `Time` of the Go runtime has
them: a real calendar day and a clock reading in range. -/
def Time.valid (t : Time) : Prop :=
  1 ≤ t.month ∧ t.month ≤ 12 ∧ 1 ≤ t.day ∧ t.day ≤ daysIn t.month t.year ∧
  t.hour < 24 ∧ t.minute < 60 ∧ t.second < 60 ∧ t.nsec < 1000000000

instance (t : Time) : Decidable t.valid := by
  unfold Time.valid; infer_instance

/-- Go `time.absoluteZeroYear`. -/
def absoluteZeroYear : Int := -292277022399

/-- Go `time.daysSinceEpoch`: days from the absolute epoch to January 1 of
`year`. -/
def daysSinceEpoch (year : Int) : Int :=
  let y := year - absoluteZeroYear
  let n400 := y / 400
  let y1 := y - 400 * n400
  let n100 := y1 / 100
  let y2 := y1 - 100 * n100
  let n4 := y2 / 4
  let y3 := y2 - 4 * n4
  146097 * n400 + 36524 * n100 + 1461 * n4 + 365 * y3

/-- Seconds from the absolute epoch to the Unix epoch: the negation of Go's
`absoluteToInternal + internalToUnix`. -/
def absoluteToUnix : Int :=
  (absoluteZeroYear - 1) * 31556952 - (1969 * 365 + 1969 / 4 - 1969 / 100 + 1969 / 400) * 86400

/-- Unix seconds of `t`, computed as Go `time.Date` does from the civil fields
and the zone offset (this is what `Time.Unix` returns). -/
def Time.unix (t : Time) : Int :=
  let d := daysSinceEpoch t.year + daysBefore (t.month - 1)
    + (if isLeap t.year ∧ t.month ≥ 3 then 1 else 0) + ((t.day : Int) - 1)
  d * 86400 + (t.hour * 3600 + t.minute * 60 + t.second : Nat) + absoluteToUnix - t.offset

/-- Go `Time.UnixNano`, unbounded: the instant of `t` in nanoseconds. -/
def Time.unixNano (t : Time) : Int :=
  t.unix * 1000000000 + t.nsec

/-- Go `time.appendInt`: the decimal text of `x`, zero-padded on the left to
`width` digits, with a leading `-` if `x` is negative. -/
def appendInt (x : Int) (width : Nat) : List Char :=
  let digits := Nat.toDigits 10 x.natAbs
  (if x < 0 then ['-'] else []) ++ (List.replicate (width - digits.length) '0' ++ digits)

/-- The layout chunks the program's layouts are made of (Go `nextStdChunk`). -/
inductive Chunk where
  | lit (text : List Char)
  | stdLongYear
  | stdZeroMonth
  | stdZeroDay
  | stdHour
  | stdZeroMinute
  | stdZeroSecond
  deriving DecidableEq, Repr

/-- Layout `"2006-01"`. -/
def layoutYearMonth : List Chunk :=
  [.stdLongYear, .lit ['-'], .stdZeroMonth]

/-- Layout `"2006-01-02-15-04-05"`. -/
def layoutStamp : List Chunk :=
  [.stdLongYear, .lit ['-'], .stdZeroMonth, .lit ['-'], .stdZeroDay, .lit ['-'],
   .stdHour, .lit ['-'], .stdZeroMinute, .lit ['-'], .stdZeroSecond]

/-- Layout `"2006:01:02 15:04:05"`. -/
def layoutExif : List Chunk :=
  [.stdLongYear, .lit [':'], .stdZeroMonth, .lit [':'], .stdZeroDay, .lit [' '],
   .stdHour, .lit [':'], .stdZeroMinute, .lit [':'], .stdZeroSecond]

/-- What `Time.Format` appends for one chunk. -/
def formatChunk (t : Time) : Chunk → List Char
  | .lit text => text
  | .stdLongYear => appendInt t.year 4
  | .stdZeroMonth => appendInt t.month 2
  | .stdZeroDay => appendInt t.day 2
  | .stdHour => appendInt t.hour 2
  | .stdZeroMinute => appendInt t.minute 2
  | .stdZeroSecond => appendInt t.second 2

/-- Go `Time.Format`, on a layout given as its chunks. -/
def Time.Format (t : Time) : List Chunk → List Char
  | [] => []
  | c :: layout => formatChunk t c ++ Time.Format t layout

/-- A decimal digit byte. -/
def isDigitByte (c : Char) : Bool :=
  decide (48 ≤ c.toNat ∧ c.toNat ≤ 57)

/-- Value of a decimal digit byte: `c - '0'`. -/
def digitVal (c : Char) : Nat :=
  c.toNat - 48

/-- Value of a run of decimal digits, most significant first. -/
def digitsVal (ds : List Char) : Nat :=
  ds.foldl (fun acc c => acc * 10 + digitVal c) 0

/-- Go `time.getnum`: a one or two digit number at the head of `s`; with
`fixed`, two digits are required. -/
def getnum : List Char → Bool → Option (Nat × List Char)
  | [], _ => none
  | [c0], fixed =>
    if !isDigitByte c0 then none
    else if fixed then none
    else some (digitVal c0, [])
  | c0 :: c1 :: rest, fixed =>
    if !isDigitByte c0 then none
    else if !isDigitByte c1 then (if fixed then none else some (digitVal c0, c1 :: rest))
    else some (digitVal c0 * 10 + digitVal c1, rest)

/-- Go `time.cutspace`. -/
def cutspace (s : List Char) : List Char :=
  s.dropWhile (fun c => c = ' ')

/-- Loop of Go `time.skip`: a space of the layout matches zero or more spaces
of the value, every other byte of the layout matches itself. -/
def skipLoop : Nat → List Char → List Char → Option (List Char)
  | _, value, [] => some value
  | 0, _, _ :: _ => none
  | fuel + 1, value, p :: ps =>
    if p = ' ' then
      match value with
      | [] => skipLoop fuel (cutspace value) (cutspace (p :: ps))
      | v :: _ =>
        if v ≠ ' ' then none else skipLoop fuel (cutspace value) (cutspace (p :: ps))
    else
      match value with
      | [] => none
      | v :: vs => if v ≠ p then none else skipLoop fuel vs ps

/-- Go `time.skip`. -/
def skip (value pre : List Char) : Option (List Char) :=
  skipLoop (pre.length + 1) value pre

/-- The fields `time.Parse` collects; `month` and `day` start unset (Go `-1`). -/
structure Parsed where
  year : Int := 0
  month : Option Nat := none
  day : Option Nat := none
  hour : Nat := 0
  min : Nat := 0
  sec : Nat := 0
  nsec : Nat := 0

/-- A fractional second in the value where the layout has none, after the
seconds field: `.` or `,` and at least one digit; the digits after the ninth
are dropped (Go `parseNanoseconds`). -/
def parseFraction (value : List Char) : Nat × List Char :=
  match value with
  | c :: d :: rest =>
    if (c = '.' ∨ c = ',') ∧ isDigitByte d then
      let run := (d :: rest).takeWhile isDigitByte
      let kept := run.take 9
      (digitsVal kept * 10 ^ (9 - kept.length), (d :: rest).drop run.length)
    else (0, value)
  | _ => (0, value)

/-- One chunk of the layout in `time.Parse`: consume the matching text of
`value` and store the field, or fail. -/
def parseChunk (st : Parsed) (value : List Char) : Chunk → Option (Parsed × List Char)
  | .lit text => (skip value text).map (fun v => (st, v))
  | .stdLongYear =>
    let p := value.take 4
    if value.length < 4 then none
    else if !p.all isDigitByte then none
    else some ({ st with year := digitsVal p }, value.drop 4)
  | .stdZeroMonth =>
    match getnum value true with
    | none => none
    | some (m, v) => if m = 0 ∨ 12 < m then none else some ({ st with month := some m }, v)
  | .stdZeroDay =>
    match getnum value true with
    | none => none
    | some (d, v) => some ({ st with day := some d }, v)
  | .stdHour =>
    match getnum value false with
    | none => none
    | some (h, v) => if 24 ≤ h then none else some ({ st with hour := h }, v)
  | .stdZeroMinute =>
    match getnum value true with
    | none => none
    | some (m, v) => if 60 ≤ m then none else some ({ st with min := m }, v)
  | .stdZeroSecond =>
    match getnum value true with
    | none => none
    | some (sec, v) =>
      if 60 ≤ sec then none
      else
        let (ns, v2) := parseFraction v
        some ({ st with sec := sec, nsec := ns }, v2)

/-- The chunk loop of `time.Parse`; after the last chunk no text may remain. -/
def parseLoop : List Chunk → Parsed → List Char → Option Parsed
  | [], st, value => if value = [] then some st else none
  | c :: layout, st, value =>
    match parseChunk st value c with
    | none => none
    | some (st2, v) => parseLoop layout st2 v

/-- Go `time.Parse(layout, value)` for a layout without zone: the fields are
read chunk by chunk, the day of the month is validated, and the result is the
`Time` with these civil fields in UTC. `none` is a parse error. -/
def Parse (layout : List Chunk) (value : List Char) : Option Time :=
  match parseLoop layout {} value with
  | none => none
  | some st =>
    let month := st.month.getD 1
    let day := st.day.getD 1
    if day < 1 ∨ day > daysIn month st.year then none
    else some { year := st.year, month := month, day := day, hour := st.hour,
                minute := st.min, second := st.sec, nsec := st.nsec, offset := 0 }

end time

/-! ## exif.go -/

/-- The Go value held in `ExifDataEntry.Value` (an `interface{}`): a Go
`string` (from `FormatFirst`), the value of an undefined-type decode (never a
Go `string`; kept by its `%v` text), or `nil`. -/
inductive Value where
  | str (s : List Char)
  | undefined (text : List Char)
  | null
  deriving DecidableEq, Repr

/-- Go `ExifDataEntry`. -/
structure ExifDataEntry where
  IfdPath : List Char
  FqIfdPath : List Char
  IfdIndex : Int
  TagId : Nat
  TagName : List Char
  TagTypeId : Nat
  TagTypeName : List Char
  UnitCount : Nat
  Value : Value
  ValueString : List Char
  deriving DecidableEq, Repr

/-- Go `map[string]ExifDataEntry`: the newest binding of a key comes first and
hides the older ones. -/
abbrev ExifMap := List (List Char × ExifDataEntry)

/-- Map read `m[key]` with its `found` flag. -/
def mapGet : ExifMap → List Char → Option ExifDataEntry
  | [], _ => none
  | (k, v) :: rest, key => if k = key then some v else mapGet rest key

/-- Map write `m[key] = v`. -/
def mapSet (m : ExifMap) (key : List Char) (v : ExifDataEntry) : ExifMap :=
  (key, v) :: m

/-- Result of `ti.Get(ifdPath, tagId)`: the indexed tag's name, the error
`ErrTagNotFound`, or another error. -/
inductive TagLookup where
  | found (name : List Char)
  | notFound
  | failed
  deriving DecidableEq, Repr

/-- Result of `valueContext.Undefined()`: a value (kept by its `%v` text),
the error `ErrUnhandledUnknownTypedTag`, or another error. -/
inductive UndefinedDecode where
  | value (text : List Char)
  | unhandled
  | failed
  deriving DecidableEq, Repr

/-- One tag the library hands to the visitor: the visitor's arguments and
what each library call made on them returns. -/
structure VisitedTag where
  fqIfdPath : List Char
  ifdIndex : Int
  tagId : Nat
  tagTypeId : Nat
  tagTypeName : List Char
  unitCount : Nat
  /-- Result of `im.StripPathPhraseIndices(fqIfdPath)`; `none` is an error. -/
  stripped : Option (List Char)
  /-- Result of `ti.Get(ifdPath, tagId)`. -/
  lookup : TagLookup
  /-- Result of `valueContext.Undefined()`. -/
  undefined : UndefinedDecode
  /-- Result of `valueContext.FormatFirst()`; `none` is an error. -/
  formatFirst : Option (List Char)
  deriving DecidableEq, Repr

/-- Go `exif.TypeUndefined`. -/
def TypeUndefined : Nat := 7

/-- The non-nil errors the visitor returns. -/
inductive VisitorError where
  | stripPath
  | tagIndex
  | formatting
  deriving DecidableEq, Repr

/-- The closure `visitor` of `exifExtract`: the map after the call and the
returned `err`. A panic of `log.Panic` is recovered by the deferred function
and leaves the named result `err` nil. -/
def visitor (exifData : ExifMap) (tag : VisitedTag) : ExifMap × Option VisitorError :=
  match tag.stripped with
  | none => (exifData, some .stripPath)
  | some ifdPath =>
    match tag.lookup with
    | .notFound => (exifData, none)
    | .failed => (exifData, some .tagIndex)
    | .found name =>
      let store (value : Value) (valueString : List Char) : ExifMap :=
        mapSet exifData name
          { IfdPath := ifdPath, FqIfdPath := tag.fqIfdPath, IfdIndex := tag.ifdIndex,
            TagId := tag.tagId, TagName := name, TagTypeId := tag.tagTypeId,
            TagTypeName := tag.tagTypeName, UnitCount := tag.unitCount,
            Value := value, ValueString := valueString }
      if tag.tagTypeId = TypeUndefined then
        match tag.undefined with
        | .value text => (store (.undefined text) text, none)
        | .unhandled => (store .null "<nil>".toList, none)
        | .failed => (exifData, none)
      else
        match tag.formatFirst with
        | none => (exifData, some .formatting)
        | some valueString => (store (.str valueString) valueString, none)

/-- The errors `exif.Visit` returns: the library's own value resolution
failed, or a visitor call returned an error. -/
inductive VisitError where
  | resolve
  | visitor (e : VisitorError)
  deriving DecidableEq, Repr

/-- The library's `exif.Visit` over the tags of one file, in order. For each
tag the library first resolves the value itself: an undefined-type decode that
fails with an error other than `ErrUnhandledUnknownTypedTag` ends the
traversal with an error before the visitor is called. Otherwise the visitor is
called, and the first non-nil error it returns ends the traversal. -/
def Visit : List VisitedTag → ExifMap → ExifMap × Option VisitError
  | [], exifData => (exifData, none)
  | tag :: tags, exifData =>
    if tag.tagTypeId = TypeUndefined ∧ tag.undefined = .failed then
      (exifData, some .resolve)
    else
      match visitor exifData tag with
      | (m, none) => Visit tags m
      | (m, some e) => (m, some (.visitor e))

/-- What `exifExtract` finds at `filePath`: a file that cannot be opened or
read, bytes in which `SearchAndExtractExif` fails (no EXIF or another
error), or an EXIF block with the tags the traversal reaches. -/
inductive Content where
  | unreadable
  | searchFailed
  | rawExif (tags : List VisitedTag)
  deriving DecidableEq, Repr

/-- Go `exifExtract`: the map is returned whether or not `Visit` fails. -/
def exifExtract : Content → ExifMap
  | .unreadable => []
  | .searchFailed => []
  | .rawExif tags => (Visit tags []).1

/-! ## main.go -/

/-- The `os.FileInfo` of a visited entry. -/
structure FileStat where
  Name : List Char
  Size : Int
  ModTime : time.Time
  IsDir : Bool
  deriving DecidableEq, Repr

/-- Go `FileInfo`. -/
structure FileInfo where
  Name : List Char
  Extension : List Char
  Size : Int
  InputPath : List Char
  ModTime : time.Time
  CapturedTime : time.Time
  ExifData : ExifMap
  deriving DecidableEq, Repr

/-- The extension of the record:
`strings.ToLower(strings.TrimPrefix(filepath.Ext(info.Name()), "."))`. -/
def fileExt (tbl : Char → Char) (name : List Char) : List Char :=
  strings.ToLower tbl (strings.TrimPrefix (filepath.Ext name) ['.'])

/-- The extensions for which the walk calls `exifExtract`. -/
def imageExtensions : List (List Char) :=
  ["jpg".toList, "jpeg".toList, "heic".toList, "png".toList]

/-- The `entry, found` chain of the walk: `DateTimeOriginal`, if not found
`DateTime`, if not found `DateTimeDigitized`. -/
def dateEntry (exifData : ExifMap) : Option ExifDataEntry :=
  match mapGet exifData "DateTimeOriginal".toList with
  | some entry => some entry
  | none =>
    match mapGet exifData "DateTime".toList with
    | some entry => some entry
    | none => mapGet exifData "DateTimeDigitized".toList

/-- The captured time the walk stores: the found entry's value, if it is a
string that `time.Parse` accepts, and the modification time otherwise. -/
def capturedTime (exifData : ExifMap) (modTime : time.Time) : time.Time :=
  match dateEntry exifData with
  | none => modTime
  | some entry =>
    match entry.Value with
    | .str dateStr =>
      match time.Parse time.layoutExif dateStr with
      | some t => t
      | none => modTime
    | _ => modTime

/-- The callback of `filepath.Walk`: `none` for a directory, else the record
appended to `fileInfos`. `content` is what `exifExtract(path)` finds. -/
def walkFn (tbl : Char → Char) (inputDir path : List Char) (info : FileStat)
    (content : Content) : Option FileInfo :=
  if info.IsDir then none
  else
    let ext := fileExt tbl info.Name
    let fileInfo : FileInfo :=
      { Name := info.Name, Extension := ext, Size := info.Size,
        InputPath := strings.TrimPrefix (strings.TrimPrefix path inputDir) ['/'],
        ModTime := info.ModTime, CapturedTime := info.ModTime, ExifData := [] }
    if ext ∈ imageExtensions then
      let exifData := exifExtract content
      some { fileInfo with ExifData := exifData,
                           CapturedTime := capturedTime exifData info.ModTime }
    else some fileInfo

/-- The path `filepath.Walk(root, fn)` passes to `fn` for the entry reached
from the root through the directory entries `names`: the root as given, and
below it `Join(path, name)` at each level. -/
def walkPath (root : List Char) (names : List (List Char)) : List Char :=
  names.foldl (fun path name => filepath.Join [path, name]) root

/-- The directories of `main`. -/
structure Dirs where
  inputDir : List Char
  outputDir : List Char
  outputDirRecognized : List Char
  outputDirError : List Char
  deriving DecidableEq, Repr

/-- The directories `main` works with: the defaults under `$HOME`, overridden
when `os.Args` has exactly three entries. -/
def mainDirs (home : List Char) (args : List (List Char)) : Dirs :=
  match args with
  | [_, input, output] =>
    { inputDir := input, outputDir := output,
      outputDirRecognized := filepath.Join [output, "output".toList],
      outputDirError := filepath.Join [output, "error".toList] }
  | _ =>
    let outputDir := filepath.Join [home, "Desktop/organizer".toList]
    { inputDir := filepath.Join [home, "Pictures".toList], outputDir := outputDir,
      outputDirRecognized := filepath.Join [outputDir, "output".toList],
      outputDirError := filepath.Join [outputDir, "error".toList] }

/-- The extensions of the first `case` of the switch. -/
def mediaExtensions : List (List Char) :=
  ["jpg".toList, "jpeg".toList, "heic".toList, "mov".toList, "mp4".toList,
   "png".toList, "gif".toList]

/-- The switch of the processing loop: `some (destDir, destFileName)`, or
`none` where the loop does `continue`. -/
def destination (tbl : Char → Char) (dirs : Dirs) (fileInfo : FileInfo) :
    Option (List Char × List Char) :=
  let ext := strings.ToLower tbl fileInfo.Extension
  if ext ∈ mediaExtensions then
    let yearMonth := fileInfo.CapturedTime.Format time.layoutYearMonth
    some (filepath.Join [dirs.outputDirRecognized, yearMonth],
      "snap-".toList ++ fileInfo.CapturedTime.Format time.layoutStamp ++ "-".toList
        ++ strings.ToLower tbl (strings.ReplaceAll fileInfo.Name "_".toList []))
  else if ext = "aae".toList then none
  else some (dirs.outputDirError, fileInfo.Name)

/-- What one turn of the processing loop asks of the file system. -/
inductive Action where
  | MkdirAll (dir : List Char)
  | copyFile (src dst : List Char)
  deriving DecidableEq, Repr

/-- One turn of the processing loop. `mkdirOk dir` tells whether
`os.MkdirAll(dir)` succeeds. -/
def processFile (tbl : Char → Char) (mkdirOk : List Char → Bool) (dirs : Dirs)
    (fileInfo : FileInfo) : List Action :=
  let srcPath := filepath.Join [dirs.inputDir, fileInfo.InputPath]
  match destination tbl dirs fileInfo with
  | none => []
  | some (destDir, destFileName) =>
    if mkdirOk destDir then
      [.MkdirAll destDir, .copyFile srcPath (filepath.Join [destDir, destFileName])]
    else [.MkdirAll destDir]

/-! ## Notions the claims are stated with -/

/-- The time an entry's value parses to against `2006:01:02 15:04:05`: `none`
when the value is not a Go string or `time.Parse` rejects it. -/
def parsedValue (entry : ExifDataEntry) : Option time.Time :=
  match entry.Value with
  | .str dateStr => time.Parse time.layoutExif dateStr
  | _ => none

/-- The candidate tag names, in priority order. -/
def candidates : List (List Char) :=
  ["DateTimeOriginal".toList, "DateTime".toList, "DateTimeDigitized".toList]

/-- The entry `entry` is the first candidate present in the mapping: it is
bound to a candidate name, and every candidate before that name is absent. -/
def firstPresent (exifData : ExifMap) (entry : ExifDataEntry) : Prop :=
  mapGet exifData "DateTimeOriginal".toList = some entry
  ∨ (mapGet exifData "DateTimeOriginal".toList = none
      ∧ mapGet exifData "DateTime".toList = some entry)
  ∨ (mapGet exifData "DateTimeOriginal".toList = none
      ∧ mapGet exifData "DateTime".toList = none
      ∧ mapGet exifData "DateTimeDigitized".toList = some entry)

instance (exifData : ExifMap) (entry : ExifDataEntry) : Decidable (firstPresent exifData entry) := by
  unfold firstPresent; infer_instance

/-- The lowercase form of one code point, as the claims use the word: an ASCII
capital letter becomes the small letter 32 code points above it, every other
ASCII code point stays as it is, and a code point outside ASCII becomes what
the Unicode case table `tbl` gives for it. -/
def lowercase (tbl : Char → Char) (c : Char) : Char :=
  if 65 ≤ c.toNat ∧ c.toNat ≤ 90 then Char.ofNat (c.toNat + 32)
  else if c.toNat < 128 then c
  else tbl c

/-- The decimal text of `n` in exactly `width` digits, most significant first,
with leading zeros: the `YYYY` (four digits) and the `MM`, `DD`, `HH`, `MM`,
`SS` (two digits) of the claims. -/
def fixedDigits : Nat → Nat → List Char
  | 0, _ => []
  | width + 1, n => fixedDigits width (n / 10) ++ [Nat.digitChar (n % 10)]

/-- The text `YYYY-MM` of a time. -/
def bucketText (t : time.Time) : List Char :=
  fixedDigits 4 t.year.toNat ++ "-".toList ++ fixedDigits 2 t.month

/-- The text `YYYY-MM-DD-HH-MM-SS` of a time. -/
def stampText (t : time.Time) : List Char :=
  bucketText t ++ "-".toList ++ fixedDigits 2 t.day ++ "-".toList ++ fixedDigits 2 t.hour
    ++ "-".toList ++ fixedDigits 2 t.minute ++ "-".toList ++ fixedDigits 2 t.second

/-! ## Sample inputs -/

/-- A fragment of the Unicode case table: U+00C9 (E with acute, capital)
lowers to U+00E9, U+0130 (I with dot above, capital) lowers to `i`, and every
other code point is left as it is. -/
def sampleTable (c : Char) : Char :=
  if c.toNat = 201 then Char.ofNat 233
  else if c.toNat = 304 then 'i'
  else c

/-- A tag of the index whose value cannot be formatted. -/
def unformattableTag : VisitedTag :=
  { fqIfdPath := "IFD".toList, ifdIndex := 0, tagId := 271, tagTypeId := 2,
    tagTypeName := "ASCII".toList, unitCount := 0, stripped := some "IFD".toList,
    lookup := .found "Make".toList, undefined := .unhandled, formatFirst := none }

/-- An undefined-type tag whose decode fails with an unexpected error. -/
def panickingTag : VisitedTag :=
  { fqIfdPath := "IFD/Exif".toList, ifdIndex := 0, tagId := 37500, tagTypeId := 7,
    tagTypeName := "UNDEFINED".toList, unitCount := 4, stripped := some "IFD/Exif".toList,
    lookup := .found "MakerNote".toList, undefined := .failed, formatFirst := none }

/-- An ASCII tag the visitor stores under `name` with the text `value`. -/
def asciiTag (fqIfdPath : List Char) (tagId : Nat) (name value : List Char) : VisitedTag :=
  { fqIfdPath := fqIfdPath, ifdIndex := 0, tagId := tagId, tagTypeId := 2,
    tagTypeName := "ASCII".toList, unitCount := value.length + 1,
    stripped := some fqIfdPath, lookup := .found name, undefined := .unhandled,
    formatFirst := some value }

/-- The entry the visitor stores for `asciiTag`. -/
def asciiEntry (fqIfdPath : List Char) (tagId : Nat) (name value : List Char) : ExifDataEntry :=
  { IfdPath := fqIfdPath, FqIfdPath := fqIfdPath, IfdIndex := 0, TagId := tagId,
    TagName := name, TagTypeId := 2, TagTypeName := "ASCII".toList,
    UnitCount := value.length + 1, Value := .str value, ValueString := value }

/-- A modification time: 2024-01-02 03:04:05 in a zone one hour east of UTC. -/
def sampleModTime : time.Time :=
  ⟨2024, 1, 2, 3, 4, 5, 0, 3600⟩

/-- The `os.FileInfo` of a regular file named `name`. -/
def sampleStat (name : List Char) : FileStat :=
  ⟨name, 12, sampleModTime, false⟩

/-- The directories of a run `organizer in out`. -/
def sampleDirs : Dirs :=
  mainDirs [] ["organizer".toList, "in".toList, "out".toList]

/-- Modification time 01:59:59 on 2023-11-05 in New York, daylight time
(UTC-4): one second before the clocks go back. -/
def beforeFallBack : time.Time :=
  ⟨2023, 11, 5, 1, 59, 59, 0, -14400⟩

/-- Modification time 01:00:00 on 2023-11-05 in New York, standard time
(UTC-5): the second after `beforeFallBack`. -/
def afterFallBack : time.Time :=
  ⟨2023, 11, 5, 1, 0, 0, 0, -18000⟩

/-- Tags of a picture taken 2023-05-14 09:30:00, saved and digitized later. -/
def sampleTags : List VisitedTag :=
  [asciiTag "IFD".toList 306 "DateTime".toList "2023:06:01 12:00:00".toList,
   asciiTag "IFD/Exif".toList 36867 "DateTimeOriginal".toList "2023:05:14 09:30:00".toList,
   asciiTag "IFD/Exif".toList 36868 "DateTimeDigitized".toList "2023:05:20 08:00:00".toList]

/-- Tags of a picture whose camera clock was never set: `DateTimeOriginal` is
all zeros, `DateTime` was written by an editor. -/
def unsetClockTags : List VisitedTag :=
  [asciiTag "IFD".toList 306 "DateTime".toList "2023:05:14 09:30:00".toList,
   asciiTag "IFD/Exif".toList 36867 "DateTimeOriginal".toList "0000:00:00 00:00:00".toList]

/-! ## Lemmas on the string functions -/

open strings filepath time

theorem replaceLoop_underscore (fuel : Nat) (s : List Char) (h : s.length ≤ fuel) :
    replaceLoop ['_'] [] fuel s = s.filter (fun c => c ≠ '_') := by
  induction fuel generalizing s with
  | zero =>
    cases s with
    | nil => simp [replaceLoop]
    | cons c cs => simp at h
  | succ n ih =>
    cases s with
    | nil => simp [replaceLoop]
    | cons c cs =>
      have hlen : cs.length ≤ n := by simpa using h
      by_cases hc : c = '_'
      · subst hc
        simp [replaceLoop, HasPrefix, ih cs hlen]
      · simp [replaceLoop, HasPrefix, ih cs hlen, hc, List.filter_cons]

theorem ReplaceAll_underscore (s : List Char) :
    ReplaceAll s "_".toList [] = s.filter (fun c => c ≠ '_') :=
  replaceLoop_underscore s.length s (le_refl _)

theorem ToLower_eq_map (tbl : Char → Char) (s : List Char) :
    ToLower tbl s = s.map (unicodeToLower tbl) := by
  unfold ToLower
  split
  · rename_i h
    apply List.map_congr_left
    intro c hc
    have := (List.all_eq_true.mp h) c hc
    simp at this
    simp only [unicodeToLower]
    rw [if_pos (by omega)]
  · rfl

theorem unicodeToLower_eq_lowercase (tbl : Char → Char) (c : Char) :
    unicodeToLower tbl c = lowercase tbl c := by
  unfold unicodeToLower lowerASCII lowercase
  by_cases h1 : 65 ≤ c.toNat ∧ c.toNat ≤ 90
  · rw [if_pos (by omega), if_pos h1, if_pos h1]
  · by_cases h2 : c.toNat < 128
    · rw [if_pos (by omega), if_neg h1, if_neg h1, if_pos h2]
    · rw [if_neg (by omega), if_neg h1, if_neg h2]

theorem ToLower_eq_lowercase (tbl : Char → Char) (s : List Char) :
    ToLower tbl s = s.map (lowercase tbl) := by
  rw [ToLower_eq_map]
  apply List.map_congr_left
  intro c _
  exact unicodeToLower_eq_lowercase tbl c

theorem ToLower_idem (tbl : Char → Char)
    (hidem : ∀ c, unicodeToLower tbl (unicodeToLower tbl c) = unicodeToLower tbl c)
    (s : List Char) : ToLower tbl (ToLower tbl s) = ToLower tbl s := by
  rw [ToLower_eq_map, ToLower_eq_map, List.map_map]
  apply List.map_congr_left
  intro c _
  exact hidem c

theorem ToLower_media (tbl : Char → Char) (e : List Char) (h : e ∈ mediaExtensions) :
    ToLower tbl e = e := by
  simp [mediaExtensions] at h
  rcases h with h | h | h | h | h | h | h <;> subst h <;> rfl

theorem lowerASCII_ascii (c : Char) (h : (lowerASCII c).toNat < 128) : c.toNat < 128 := by
  unfold lowerASCII at h
  split at h
  · omega
  · exact h

theorem ToLower_of_lowerASCII (tbl : Char → Char) (e l : List Char)
    (hl : ∀ c ∈ l, c.toNat < 128) (h : e.map lowerASCII = l) : ToLower tbl e = l := by
  rw [ToLower_eq_map, ← h]
  apply List.map_congr_left
  intro c hc
  have h1 : (lowerASCII c).toNat < 128 := hl _ (h ▸ List.mem_map_of_mem _ hc)
  have h2 := lowerASCII_ascii c h1
  simp only [unicodeToLower]
  rw [if_pos (by omega)]

theorem mainDirs_recognized (home : List Char) (args : List (List Char)) :
    (mainDirs home args).outputDirRecognized
      = Join [(mainDirs home args).outputDir, "output".toList] := by
  unfold mainDirs
  split <;> rfl

theorem mainDirs_error (home : List Char) (args : List (List Char)) :
    (mainDirs home args).outputDirError
      = Join [(mainDirs home args).outputDir, "error".toList] := by
  unfold mainDirs
  split <;> rfl

theorem lowerASCII_idem (c : Char) : lowerASCII (lowerASCII c) = lowerASCII c := by
  unfold lowerASCII
  by_cases h : 65 ≤ c.toNat ∧ c.toNat ≤ 90
  · have hv : (Char.ofNat (c.toNat + 32)).toNat = c.toNat + 32 := by
      obtain ⟨h1, h2⟩ := h
      generalize c.toNat = n at *
      interval_cases n <;> rfl
    simp only [h, and_self, if_true, hv]
    rw [if_neg (by omega)]
  · simp only [h, if_false]

theorem unicodeToLower_id_idem (c : Char) :
    unicodeToLower id (unicodeToLower id c) = unicodeToLower id c := by
  unfold unicodeToLower
  by_cases h : c.toNat ≤ 127
  · have h2 : (lowerASCII c).toNat ≤ 127 := by
      unfold lowerASCII
      by_cases h3 : 65 ≤ c.toNat ∧ c.toNat ≤ 90
      · have hv : (Char.ofNat (c.toNat + 32)).toNat = c.toNat + 32 := by
          obtain ⟨h1, h2⟩ := h3
          generalize c.toNat = n at *
          interval_cases n <;> rfl
        simp only [h3, and_self, if_true, hv]
        omega
      · simp only [h3, if_false]
        exact h
    simp only [h, if_true, h2, lowerASCII_idem]
  · simp [h]

theorem walkFn_regular (tbl : Char → Char) (inputDir path : List Char) (info : FileStat)
    (content : Content) (hreg : info.IsDir = false) :
    ∃ fileInfo, walkFn tbl inputDir path info content = some fileInfo
      ∧ fileInfo.Name = info.Name ∧ fileInfo.Extension = fileExt tbl info.Name
      ∧ fileInfo.ModTime = info.ModTime
      ∧ fileInfo.InputPath = TrimPrefix (TrimPrefix path inputDir) ['/']
      ∧ fileInfo.CapturedTime
          = (if fileExt tbl info.Name ∈ imageExtensions
             then capturedTime (exifExtract content) info.ModTime else info.ModTime) := by
  unfold walkFn
  simp only [hreg, Bool.false_eq_true, if_false]
  split
  · exact ⟨_, rfl, rfl, rfl, rfl, rfl, rfl⟩
  · exact ⟨_, rfl, rfl, rfl, rfl, rfl, rfl⟩

theorem dateEntry_of_firstPresent (exifData : ExifMap) (entry : ExifDataEntry)
    (h : firstPresent exifData entry) : dateEntry exifData = some entry := by
  unfold dateEntry
  rcases h with h | ⟨h1, h2⟩ | ⟨h1, h2, h3⟩
  · simp only [h]
  · simp only [h1, h2]
  · simp only [h1, h2, h3]

theorem capturedTime_eq (exifData : ExifMap) (modTime : Time) :
    capturedTime exifData modTime
      = match dateEntry exifData with
        | none => modTime
        | some entry => (parsedValue entry).getD modTime := by
  unfold capturedTime
  cases dateEntry exifData with
  | none => rfl
  | some entry =>
    simp only [parsedValue]
    cases entry.Value with
    | str dateStr =>
      show (match Parse layoutExif dateStr with
            | some t => t
            | none => modTime) = (Parse layoutExif dateStr).getD modTime
      cases Parse layoutExif dateStr <;> rfl
    | undefined text => rfl
    | null => rfl

theorem capturedTime_of_firstPresent (exifData : ExifMap) (modTime : Time)
    (entry : ExifDataEntry) (h : firstPresent exifData entry) :
    capturedTime exifData modTime = (parsedValue entry).getD modTime := by
  rw [capturedTime_eq, dateEntry_of_firstPresent exifData entry h]

theorem capturedTime_of_none_parse (exifData : ExifMap) (modTime : Time)
    (h : ∀ key ∈ candidates, ∀ entry, mapGet exifData key = some entry →
      parsedValue entry = none) :
    capturedTime exifData modTime = modTime := by
  rw [capturedTime_eq]
  unfold dateEntry
  cases h1 : mapGet exifData "DateTimeOriginal".toList with
  | some e => simp [h _ (by simp [candidates]) e h1]
  | none =>
    cases h2 : mapGet exifData "DateTime".toList with
    | some e => simp [h _ (by simp [candidates]) e h2]
    | none =>
      cases h3 : mapGet exifData "DateTimeDigitized".toList with
      | some e => simp [h _ (by simp [candidates]) e h3]
      | none => rfl

theorem image_is_media (e : List Char) (h : e ∈ imageExtensions) : e ∈ mediaExtensions := by
  simp [imageExtensions] at h
  rcases h with h | h | h | h <;> subst h <;> decide

theorem destination_media (tbl : Char → Char) (home : List Char) (args : List (List Char))
    (fileInfo : FileInfo) (hext : fileInfo.Extension ∈ mediaExtensions) :
    destination tbl (mainDirs home args) fileInfo
      = some (Join [Join [(mainDirs home args).outputDir, "output".toList],
                    fileInfo.CapturedTime.Format layoutYearMonth],
              "snap-".toList ++ fileInfo.CapturedTime.Format layoutStamp ++ "-".toList
                ++ ToLower tbl (fileInfo.Name.filter (fun c => c ≠ '_'))) := by
  unfold destination
  simp only [ToLower_media tbl _ hext, hext, if_true, mainDirs_recognized,
    ReplaceAll_underscore]

theorem Format_yearMonth (t : Time) :
    t.Format layoutYearMonth = appendInt t.year 4 ++ "-".toList ++ appendInt t.month 2 := by
  simp [Time.Format, layoutYearMonth, formatChunk]

theorem Format_stamp (t : Time) :
    t.Format layoutStamp
      = t.Format layoutYearMonth ++ "-".toList ++ appendInt t.day 2 ++ "-".toList
          ++ appendInt t.hour 2 ++ "-".toList ++ appendInt t.minute 2 ++ "-".toList
          ++ appendInt t.second 2 := by
  simp [Time.Format, layoutYearMonth, layoutStamp, formatChunk]

/-! ## Lemmas on the formatted time -/

theorem digitVal_digitChar (k : Nat) (h : k < 10) : digitVal (Nat.digitChar k) = k := by
  interval_cases k <;> rfl

theorem digitChar_toNat (k : Nat) (h : k < 10) : (Nat.digitChar k).toNat = 48 + k := by
  interval_cases k <;> rfl

theorem foldl_digits (acc : Nat) (l : List Char) :
    l.foldl (fun acc c => acc * 10 + digitVal c) acc
      = acc * 10 ^ l.length + digitsVal l := by
  unfold digitsVal
  induction l generalizing acc with
  | nil => simp
  | cons c cs ih =>
    simp only [List.foldl_cons, List.length_cons]
    rw [ih (acc * 10 + digitVal c), ih (0 * 10 + digitVal c)]
    ring

theorem digitsVal_cons (c : Char) (l : List Char) :
    digitsVal (c :: l) = digitVal c * 10 ^ l.length + digitsVal l := by
  show (c :: l).foldl (fun acc c => acc * 10 + digitVal c) 0 = _
  rw [List.foldl_cons, foldl_digits]
  simp

theorem digitsVal_toDigitsCore (fuel n : Nat) (ds : List Char) (h : n < fuel) :
    digitsVal (Nat.toDigitsCore 10 fuel n ds) = n * 10 ^ ds.length + digitsVal ds := by
  induction fuel generalizing n ds with
  | zero => omega
  | succ fuel ih =>
    unfold Nat.toDigitsCore
    simp only
    have hd : digitVal (Nat.digitChar (n % 10)) = n % 10 :=
      digitVal_digitChar _ (Nat.mod_lt _ (by decide))
    split
    · rename_i h0
      rw [digitsVal_cons, hd]
      have : n = n % 10 := by omega
      rw [← this]
    · rename_i h0
      have hlt : n / 10 < fuel := by omega
      rw [ih (n / 10) _ hlt, digitsVal_cons, hd, List.length_cons, pow_succ]
      have e : n * 10 ^ ds.length = (10 * (n / 10) + n % 10) * 10 ^ ds.length := by
        rw [Nat.div_add_mod n 10]
      rw [e]
      ring

theorem digitsVal_toDigits (n : Nat) : digitsVal (Nat.toDigits 10 n) = n := by
  unfold Nat.toDigits
  rw [digitsVal_toDigitsCore _ _ _ (Nat.lt_succ_self n)]
  simp [digitsVal]

theorem digitsVal_replicate_zero (k : Nat) (l : List Char) :
    digitsVal (List.replicate k '0' ++ l) = digitsVal l := by
  induction k with
  | zero => rfl
  | succ k ih =>
    rw [List.replicate_succ, List.cons_append, digitsVal_cons, ih]
    have : digitVal '0' = 0 := rfl
    rw [this]; simp

theorem toDigitsCore_digits (fuel n : Nat) (ds : List Char)
    (hds : ∀ c ∈ ds, c ≠ '-') : ∀ c ∈ Nat.toDigitsCore 10 fuel n ds, c ≠ '-' := by
  induction fuel generalizing n ds with
  | zero => exact hds
  | succ fuel ih =>
    unfold Nat.toDigitsCore
    simp only
    have hd : Nat.digitChar (n % 10) ≠ '-' := by
      have h10 : n % 10 < 10 := Nat.mod_lt _ (by decide)
      generalize n % 10 = k at h10
      interval_cases k <;> decide
    have hds2 : ∀ c ∈ Nat.digitChar (n % 10) :: ds, c ≠ '-' := by
      intro c hc
      rcases List.mem_cons.mp hc with rfl | hc
      · exact hd
      · exact hds c hc
    split
    · exact hds2
    · exact ih _ _ hds2


theorem padded_no_minus (k n : Nat) :
    ∀ c ∈ List.replicate k '0' ++ Nat.toDigits 10 n, c ≠ '-' := by
  intro c hc
  rcases List.mem_append.mp hc with h | h
  · rw [List.eq_of_mem_replicate h]; decide
  · exact toDigitsCore_digits _ _ [] (fun _ h => absurd h (List.not_mem_nil _)) c h

theorem digitsVal_padded (k n : Nat) :
    digitsVal (List.replicate k '0' ++ Nat.toDigits 10 n) = n := by
  rw [digitsVal_replicate_zero, digitsVal_toDigits]

theorem appendInt_inj (x y : Int) (w : Nat) (h : appendInt x w = appendInt y w) : x = y := by
  unfold appendInt at h
  simp only at h
  by_cases hx : x < 0 <;> by_cases hy : y < 0
  · simp only [hx, hy, if_true, List.singleton_append, List.cons.injEq, true_and] at h
    have := congrArg digitsVal h
    rw [digitsVal_padded, digitsVal_padded] at this
    omega
  · simp only [hx, hy, if_true, if_false, List.singleton_append, List.nil_append] at h
    have hm : '-' ∈ List.replicate (w - (Nat.toDigits 10 y.natAbs).length) '0'
        ++ Nat.toDigits 10 y.natAbs := h ▸ List.mem_cons_self _ _
    exact absurd rfl (padded_no_minus _ _ _ hm)
  · simp only [hx, hy, if_true, if_false, List.singleton_append, List.nil_append] at h
    have hm : '-' ∈ List.replicate (w - (Nat.toDigits 10 x.natAbs).length) '0'
        ++ Nat.toDigits 10 x.natAbs := h ▸ List.mem_cons_self _ _
    exact absurd rfl (padded_no_minus _ _ _ hm)
  · simp only [hx, hy, if_false, List.nil_append] at h
    have := congrArg digitsVal h
    rw [digitsVal_padded, digitsVal_padded] at this
    omega

theorem appendInt_two (n : Nat) (h : n < 100) :
    appendInt (n : Int) 2 = [Nat.digitChar (n / 10), Nat.digitChar (n % 10)] := by
  interval_cases n <;> rfl

theorem yearMonth_inj (t1 t2 : Time) (h1 : t1.month < 100) (h2 : t2.month < 100)
    (h : t1.Format layoutYearMonth = t2.Format layoutYearMonth) :
    t1.year = t2.year ∧ t1.month = t2.month := by
  rw [Format_yearMonth, Format_yearMonth] at h
  have hl : (appendInt (t1.month : Int) 2).length = (appendInt (t2.month : Int) 2).length := by
    rw [appendInt_two _ h1, appendInt_two _ h2]; rfl
  obtain ⟨ha, hb⟩ := List.append_inj' h hl
  have hy := (List.append_inj' ha rfl).1
  refine ⟨appendInt_inj _ _ _ hy, ?_⟩
  have := appendInt_inj _ _ _ hb
  exact_mod_cast this

theorem Less_append_left (p a b : List Char) : Less (p ++ a) (p ++ b) = Less a b := by
  induction p with
  | nil => rfl
  | cons c p ih =>
    simp only [List.cons_append, Less, lt_self_iff_false, if_false]
    exact ih

theorem Less_two (x y : Nat) (hy : y < 100) (hxy : x < y) (r1 r2 : List Char) :
    Less (appendInt (x : Int) 2 ++ r1) (appendInt (y : Int) 2 ++ r2) = true := by
  rw [appendInt_two x (by omega), appendInt_two y hy]
  have hx1 : x / 10 < 10 := by omega
  have hy1 : y / 10 < 10 := by omega
  have hx0 : x % 10 < 10 := by omega
  have hy0 : y % 10 < 10 := by omega
  simp only [List.cons_append, List.nil_append, Less, digitChar_toNat _ hx1,
    digitChar_toNat _ hy1, digitChar_toNat _ hx0, digitChar_toNat _ hy0]
  by_cases h : x / 10 < y / 10
  · rw [if_pos (by omega)]
  · rw [if_neg (by omega), if_neg (by omega), if_pos (by omega)]

theorem isDigitByte_digitChar (k : Nat) (h : k < 10) : isDigitByte (Nat.digitChar k) = true := by
  interval_cases k <;> rfl

theorem toDigitsCore_isDigit (fuel n : Nat) (ds : List Char)
    (hds : ∀ c ∈ ds, isDigitByte c = true) :
    ∀ c ∈ Nat.toDigitsCore 10 fuel n ds, isDigitByte c = true := by
  induction fuel generalizing n ds with
  | zero => exact hds
  | succ fuel ih =>
    unfold Nat.toDigitsCore
    simp only
    have hd : isDigitByte (Nat.digitChar (n % 10)) = true :=
      isDigitByte_digitChar _ (Nat.mod_lt _ (by decide))
    have hds2 : ∀ c ∈ Nat.digitChar (n % 10) :: ds, isDigitByte c = true := by
      intro c hc
      rcases List.mem_cons.mp hc with rfl | hc
      · exact hd
      · exact hds c hc
    split
    · exact hds2
    · exact ih _ _ hds2

theorem digitVal_le (c : Char) (h : isDigitByte c = true) : digitVal c ≤ 9 := by
  unfold isDigitByte at h
  unfold digitVal
  simp at h
  omega

theorem digitVal_inj (c1 c2 : Char) (h1 : isDigitByte c1 = true) (h2 : isDigitByte c2 = true)
    (h : digitVal c1 = digitVal c2) : c1 = c2 := by
  unfold isDigitByte at h1 h2
  unfold digitVal at h
  simp at h1 h2
  have ht : c1.toNat = c2.toNat := by omega
  rw [← Char.ofNat_toNat c1, ← Char.ofNat_toNat c2, ht]

theorem digitsVal_lt (l : List Char) (h : ∀ c ∈ l, isDigitByte c = true) :
    digitsVal l < 10 ^ l.length := by
  induction l with
  | nil => simp [digitsVal]
  | cons c l ih =>
    have hc := digitVal_le c (h c (List.mem_cons_self _ _))
    have hl := ih (fun x hx => h x (List.mem_cons_of_mem _ hx))
    rw [digitsVal_cons, List.length_cons, pow_succ]
    have : digitVal c * 10 ^ l.length ≤ 9 * 10 ^ l.length := Nat.mul_le_mul_right _ hc
    omega

theorem digits_unique (l1 l2 : List Char) (hlen : l1.length = l2.length)
    (h1 : ∀ c ∈ l1, isDigitByte c = true) (h2 : ∀ c ∈ l2, isDigitByte c = true)
    (hv : digitsVal l1 = digitsVal l2) : l1 = l2 := by
  induction l1 generalizing l2 with
  | nil =>
    cases l2 with
    | nil => rfl
    | cons c l => simp at hlen
  | cons c1 t1 ih =>
    cases l2 with
    | nil => simp at hlen
    | cons c2 t2 =>
      have hl : t1.length = t2.length := by simpa using hlen
      have b1 := digitsVal_lt t1 (fun x hx => h1 x (List.mem_cons_of_mem _ hx))
      have b2 := digitsVal_lt t2 (fun x hx => h2 x (List.mem_cons_of_mem _ hx))
      rw [digitsVal_cons, digitsVal_cons, hl] at hv
      rw [hl] at b1
      have hP : 0 < 10 ^ t2.length := Nat.pow_pos (by decide)
      have q1 : (digitVal c1 * 10 ^ t2.length + digitsVal t1) / 10 ^ t2.length = digitVal c1 := by
        rw [Nat.add_comm, Nat.add_mul_div_right _ _ hP, Nat.div_eq_of_lt b1, Nat.zero_add]
      have q2 : (digitVal c2 * 10 ^ t2.length + digitsVal t2) / 10 ^ t2.length = digitVal c2 := by
        rw [Nat.add_comm, Nat.add_mul_div_right _ _ hP, Nat.div_eq_of_lt b2, Nat.zero_add]
      have hd : digitVal c1 = digitVal c2 := by rw [← q1, ← q2, hv]
      have ht : digitsVal t1 = digitsVal t2 := by rw [hd] at hv; omega
      rw [digitVal_inj c1 c2 (h1 _ (List.mem_cons_self _ _)) (h2 _ (List.mem_cons_self _ _)) hd,
        ih t2 hl (fun x hx => h1 x (List.mem_cons_of_mem _ hx))
          (fun x hx => h2 x (List.mem_cons_of_mem _ hx)) ht]

theorem fixedDigits_length (w n : Nat) : (fixedDigits w n).length = w := by
  induction w generalizing n with
  | zero => rfl
  | succ w ih => simp [fixedDigits, ih]

theorem fixedDigits_isDigit (w n : Nat) : ∀ c ∈ fixedDigits w n, isDigitByte c = true := by
  induction w generalizing n with
  | zero => intro c hc; cases hc
  | succ w ih =>
    intro c hc
    simp only [fixedDigits, List.mem_append, List.mem_singleton] at hc
    rcases hc with hc | rfl
    · exact ih _ c hc
    · exact isDigitByte_digitChar _ (Nat.mod_lt _ (by decide))

theorem digitsVal_snoc (l : List Char) (c : Char) :
    digitsVal (l ++ [c]) = digitsVal l * 10 + digitVal c := by
  simp [digitsVal, List.foldl_append]

theorem digitsVal_fixedDigits (w n : Nat) (h : n < 10 ^ w) : digitsVal (fixedDigits w n) = n := by
  induction w generalizing n with
  | zero =>
    simp at h
    subst h
    rfl
  | succ w ih =>
    have hq : n / 10 < 10 ^ w := by
      rw [pow_succ] at h
      omega
    rw [fixedDigits, digitsVal_snoc, ih _ hq, digitVal_digitChar _ (Nat.mod_lt _ (by decide))]
    omega

theorem appendInt_eq_fixedDigits (w n : Nat) (hw : 0 < w) (h : n < 10 ^ w) :
    appendInt (n : Int) w = fixedDigits w n := by
  have hlen : (Nat.toDigits 10 n).length ≤ w :=
    Nat.toDigitsCore_length 10 (by decide) (n + 1) n w h hw
  have e : appendInt (n : Int) w
      = List.replicate (w - (Nat.toDigits 10 n).length) '0' ++ Nat.toDigits 10 n := by
    unfold appendInt
    simp
  rw [e]
  apply digits_unique
  · rw [List.length_append, List.length_replicate, fixedDigits_length]
    omega
  · intro c hc
    rcases List.mem_append.mp hc with hc | hc
    · rw [List.eq_of_mem_replicate hc]; rfl
    · exact toDigitsCore_isDigit _ _ [] (fun _ hx => absurd hx (List.not_mem_nil _)) c hc
  · exact fixedDigits_isDigit w n
  · rw [digitsVal_padded, digitsVal_fixedDigits w n h]

theorem daysIn_le (m : Nat) (year : Int) (hm : m ≤ 12) : daysIn m year ≤ 31 := by
  unfold daysIn
  split
  · omega
  · interval_cases m <;> decide

theorem Format_eq_text (t : Time) (hv : t.valid) (h0 : 0 ≤ t.year) (h1 : t.year ≤ 9999) :
    t.Format layoutYearMonth = bucketText t ∧ t.Format layoutStamp = stampText t := by
  obtain ⟨hm, hm2, hd, hd2, hh, hmi, hs, -⟩ := hv
  have hD := daysIn_le t.month t.year hm2
  have ey : appendInt t.year 4 = fixedDigits 4 t.year.toNat := by
    have hy : t.year = ((t.year.toNat : Nat) : Int) := (Int.toNat_of_nonneg h0).symm
    rw [hy, Int.toNat_ofNat]
    exact appendInt_eq_fixedDigits 4 _ (by decide) (by omega)
  have em := appendInt_eq_fixedDigits 2 t.month (by decide) (by omega)
  have ed := appendInt_eq_fixedDigits 2 t.day (by decide) (by omega)
  have eh := appendInt_eq_fixedDigits 2 t.hour (by decide) (by omega)
  have emi := appendInt_eq_fixedDigits 2 t.minute (by decide) (by omega)
  have es := appendInt_eq_fixedDigits 2 t.second (by decide) (by omega)
  have hb : t.Format layoutYearMonth = bucketText t := by
    rw [Format_yearMonth, ey, em]; rfl
  refine ⟨hb, ?_⟩
  rw [Format_stamp, hb, ed, eh, emi, es]
  rfl

theorem destination_of_media (tbl : Char → Char) (dirs : Dirs) (fileInfo : FileInfo)
    (hext : ToLower tbl fileInfo.Extension ∈ mediaExtensions) :
    destination tbl dirs fileInfo
      = some (Join [dirs.outputDirRecognized, fileInfo.CapturedTime.Format layoutYearMonth],
              "snap-".toList ++ fileInfo.CapturedTime.Format layoutStamp ++ "-".toList
                ++ ToLower tbl (ReplaceAll fileInfo.Name "_".toList [])) := by
  unfold destination
  simp only [hext, if_true]

theorem stamp_Less (t1 t2 : Time) (hv1 : t1.valid) (hv2 : t2.valid)
    (hoff : t1.offset = t2.offset)
    (hb : t1.Format layoutYearMonth = t2.Format layoutYearMonth)
    (hlt : t1.unixNano + 1000000000 ≤ t2.unixNano) (r1 r2 : List Char) :
    Less (t1.Format layoutStamp ++ r1) (t2.Format layoutStamp ++ r2) = true := by
  obtain ⟨hm1, hm1', hd1, hd1', hh1, hmi1, hs1, hn1⟩ := hv1
  obtain ⟨hm2, hm2', hd2, hd2', hh2, hmi2, hs2, hn2⟩ := hv2
  obtain ⟨hy, hm⟩ := yearMonth_inj t1 t2 (by omega) (by omega) hb
  have hD1 := daysIn_le t1.month t1.year hm1'
  have hD2 := daysIn_le t2.month t2.year hm2'
  rw [Format_stamp, Format_stamp, hb]
  simp only [List.append_assoc]
  rw [Less_append_left, Less_append_left]
  unfold Time.unixNano Time.unix at hlt
  simp only at hlt
  rw [hy, hm, hoff] at hlt
  generalize daysSinceEpoch t2.year = A at hlt
  generalize (daysBefore (t2.month - 1) : Int) = B at hlt
  generalize (if (isLeap t2.year = true ∧ t2.month ≥ 3) then (1 : Int) else 0) = C at hlt
  generalize absoluteToUnix = U at hlt
  push_cast at hlt
  rcases Nat.lt_trichotomy t1.day t2.day with hd | hd | hd
  · exact Less_two _ _ (by omega) hd _ _
  · rw [hd, Less_append_left, Less_append_left]
    rcases Nat.lt_trichotomy t1.hour t2.hour with hh | hh | hh
    · exact Less_two _ _ (by omega) hh _ _
    · rw [hh, Less_append_left, Less_append_left]
      rcases Nat.lt_trichotomy t1.minute t2.minute with hmi | hmi | hmi
      · exact Less_two _ _ (by omega) hmi _ _
      · rw [hmi, Less_append_left, Less_append_left]
        rcases Nat.lt_trichotomy t1.second t2.second with hs | hs | hs
        · exact Less_two _ _ (by omega) hs _ _
        · omega
        · omega
      · omega
    · omega
  · omega

/-! ## The claims -/

/-- C1: a record whose lowercased extension is one of jpg, jpeg, heic, mov,
mp4, png, gif goes to `<destination root>/output/<bucket>` under the name
`snap-<stamp>-<name>`, where `<name>` is the original name with every
underscore removed and then every code point put in lowercase, and bucket and
stamp are both printed from the record's captured time: year in at least four
digits, then month, day, hour, minute and second in two. For a well-formed
captured time of a year from 0 to 9999 the bucket is the text `YYYY-MM` and the
stamp the text `YYYY-MM-DD-HH-MM-SS`. -/
theorem C1_media_destination (tbl : Char → Char) (home : List Char) (args : List (List Char))
    (fileInfo : FileInfo)
    (hext : fileInfo.Extension.map (lowercase tbl) ∈ mediaExtensions) :
    destination tbl (mainDirs home args) fileInfo
      = some (Join [Join [(mainDirs home args).outputDir, "output".toList],
                    appendInt fileInfo.CapturedTime.year 4 ++ "-".toList
                      ++ appendInt fileInfo.CapturedTime.month 2],
              "snap-".toList
                ++ (appendInt fileInfo.CapturedTime.year 4 ++ "-".toList
                    ++ appendInt fileInfo.CapturedTime.month 2 ++ "-".toList
                    ++ appendInt fileInfo.CapturedTime.day 2 ++ "-".toList
                    ++ appendInt fileInfo.CapturedTime.hour 2 ++ "-".toList
                    ++ appendInt fileInfo.CapturedTime.minute 2 ++ "-".toList
                    ++ appendInt fileInfo.CapturedTime.second 2)
                ++ "-".toList
                ++ (fileInfo.Name.filter (fun c => c ≠ '_')).map (lowercase tbl))
    ∧ (fileInfo.CapturedTime.valid → 0 ≤ fileInfo.CapturedTime.year →
        fileInfo.CapturedTime.year ≤ 9999 →
        destination tbl (mainDirs home args) fileInfo
          = some (Join [Join [(mainDirs home args).outputDir, "output".toList],
                        bucketText fileInfo.CapturedTime],
                  "snap-".toList ++ stampText fileInfo.CapturedTime ++ "-".toList
                    ++ (fileInfo.Name.filter (fun c => c ≠ '_')).map (lowercase tbl))) := by
  have hd : destination tbl (mainDirs home args) fileInfo
      = some (Join [Join [(mainDirs home args).outputDir, "output".toList],
                    fileInfo.CapturedTime.Format layoutYearMonth],
              "snap-".toList ++ fileInfo.CapturedTime.Format layoutStamp ++ "-".toList
                ++ (fileInfo.Name.filter (fun c => c ≠ '_')).map (lowercase tbl)) := by
    unfold destination
    simp only [ToLower_eq_lowercase, hext, if_true, mainDirs_recognized,
      ReplaceAll_underscore]
  constructor
  · rw [hd]
    simp [Time.Format, layoutYearMonth, layoutStamp, formatChunk]
  · intro hv h0 h1
    obtain ⟨e1, e2⟩ := Format_eq_text fileInfo.CapturedTime hv h0 h1
    rw [hd, e1, e2]

/-- C1 at `IMG_0001.JPG` captured 2023-05-14 09:30:00, run as
`organizer in out`: the file is copied to
`out/output/2023-05/snap-2023-05-14-09-30-00-img0001.jpg`; and at a name
`<U+00C9>_A.JPG` with extension `JPG`, lowered with `sampleTable`: the name
ends in `<U+00E9>a.jpg`. -/
theorem C1_media_destination_witness :
    ("jpg".toList.map (lowercase id) ∈ mediaExtensions
      ∧ Time.valid ⟨2023, 5, 14, 9, 30, 0, 0, 0⟩
      ∧ destination id (mainDirs [] ["organizer".toList, "in".toList, "out".toList])
          { Name := "IMG_0001.JPG".toList, Extension := "jpg".toList, Size := 12,
            InputPath := "IMG_0001.JPG".toList, ModTime := sampleModTime,
            CapturedTime := ⟨2023, 5, 14, 9, 30, 0, 0, 0⟩, ExifData := [] }
        = some ("out/output/2023-05".toList, "snap-2023-05-14-09-30-00-img0001.jpg".toList)
      ∧ processFile id (fun _ => true)
          (mainDirs [] ["organizer".toList, "in".toList, "out".toList])
          { Name := "IMG_0001.JPG".toList, Extension := "jpg".toList, Size := 12,
            InputPath := "IMG_0001.JPG".toList, ModTime := sampleModTime,
            CapturedTime := ⟨2023, 5, 14, 9, 30, 0, 0, 0⟩, ExifData := [] }
        = [.MkdirAll "out/output/2023-05".toList,
           .copyFile "in/IMG_0001.JPG".toList
             "out/output/2023-05/snap-2023-05-14-09-30-00-img0001.jpg".toList])
    ∧ ("JPG".toList.map (lowercase sampleTable) ∈ mediaExtensions
      ∧ destination sampleTable (mainDirs [] ["organizer".toList, "in".toList, "out".toList])
          { Name := [Char.ofNat 201, '_', 'A', '.', 'J', 'P', 'G'],
            Extension := "JPG".toList, Size := 12,
            InputPath := [Char.ofNat 201, '_', 'A', '.', 'J', 'P', 'G'],
            ModTime := sampleModTime,
            CapturedTime := ⟨2023, 5, 14, 9, 30, 0, 0, 0⟩, ExifData := [] }
        = some ("out/output/2023-05".toList,
            "snap-2023-05-14-09-30-00-".toList ++ [Char.ofNat 233, 'a', '.', 'j', 'p', 'g'])
      ∧ processFile sampleTable (fun _ => true)
          (mainDirs [] ["organizer".toList, "in".toList, "out".toList])
          { Name := [Char.ofNat 201, '_', 'A', '.', 'J', 'P', 'G'],
            Extension := "JPG".toList, Size := 12,
            InputPath := [Char.ofNat 201, '_', 'A', '.', 'J', 'P', 'G'],
            ModTime := sampleModTime,
            CapturedTime := ⟨2023, 5, 14, 9, 30, 0, 0, 0⟩, ExifData := [] }
        = [.MkdirAll "out/output/2023-05".toList,
           .copyFile ("in/".toList ++ [Char.ofNat 201, '_', 'A', '.', 'J', 'P', 'G'])
             ("out/output/2023-05/snap-2023-05-14-09-30-00-".toList
               ++ [Char.ofNat 233, 'a', '.', 'j', 'p', 'g'])]) :=
  ⟨⟨by decide, by decide,
    ((C1_media_destination id [] ["organizer".toList, "in".toList, "out".toList]
        { Name := "IMG_0001.JPG".toList, Extension := "jpg".toList, Size := 12,
          InputPath := "IMG_0001.JPG".toList, ModTime := sampleModTime,
          CapturedTime := ⟨2023, 5, 14, 9, 30, 0, 0, 0⟩, ExifData := [] }
        (by decide)).2 (by decide) (by decide) (by decide)).trans (by decide),
    by decide⟩,
   ⟨by decide,
    (C1_media_destination sampleTable [] ["organizer".toList, "in".toList, "out".toList]
        { Name := [Char.ofNat 201, '_', 'A', '.', 'J', 'P', 'G'],
          Extension := "JPG".toList, Size := 12,
          InputPath := [Char.ofNat 201, '_', 'A', '.', 'J', 'P', 'G'],
          ModTime := sampleModTime,
          CapturedTime := ⟨2023, 5, 14, 9, 30, 0, 0, 0⟩, ExifData := [] }
        (by decide)).1.trans (by decide),
    by decide⟩⟩

/-- C7: a regular file whose lowercased extension is none of jpg, jpeg, heic,
mov, mp4, png, gif, aae (a name without extension included) goes to the flat
directory `<destination root>/error` under its own name, unchanged, whatever
its path, content and times. The case table is one under which a lowered rune
lowers to itself. -/
theorem C7_unrecognized_destination (tbl : Char → Char)
    (hidem : ∀ c, unicodeToLower tbl (unicodeToLower tbl c) = unicodeToLower tbl c)
    (mkdirOk : List Char → Bool) (home : List Char) (args : List (List Char))
    (path : List Char) (info : FileStat) (content : Content)
    (hreg : info.IsDir = false)
    (hext : fileExt tbl info.Name ∉ mediaExtensions ++ ["aae".toList]) :
    ∃ fileInfo,
      walkFn tbl (mainDirs home args).inputDir path info content = some fileInfo
      ∧ destination tbl (mainDirs home args) fileInfo
          = some (Join [(mainDirs home args).outputDir, "error".toList], info.Name)
      ∧ (mkdirOk (Join [(mainDirs home args).outputDir, "error".toList]) = true →
          processFile tbl mkdirOk (mainDirs home args) fileInfo
            = [.MkdirAll (Join [(mainDirs home args).outputDir, "error".toList]),
               .copyFile (Join [(mainDirs home args).inputDir, fileInfo.InputPath])
                 (Join [Join [(mainDirs home args).outputDir, "error".toList], info.Name])]) := by
  obtain ⟨fileInfo, hw, hname, hx, -, -, -⟩ :=
    walkFn_regular tbl (mainDirs home args).inputDir path info content hreg
  have key : ToLower tbl fileInfo.Extension = fileExt tbl info.Name := by
    rw [hx]; exact ToLower_idem tbl hidem _
  have h1 : fileExt tbl info.Name ∉ mediaExtensions := fun h => hext (List.mem_append_left _ h)
  have h2 : fileExt tbl info.Name ≠ "aae".toList := fun h =>
    hext (List.mem_append_right _ (by simp [h]))
  have hd : destination tbl (mainDirs home args) fileInfo
      = some (Join [(mainDirs home args).outputDir, "error".toList], info.Name) := by
    unfold destination
    simp only [key, h1, h2, if_false, mainDirs_error, hname]
  refine ⟨fileInfo, hw, hd, ?_⟩
  intro hok
  unfold processFile
  simp only [hd, hok, if_true]

/-- C7 at `note.txt` with destination root `out`: it lands at
`out/error/note.txt`. -/
theorem C7_unrecognized_destination_witness :
    ∃ fileInfo,
      walkFn id "in".toList "in/sub/note.txt".toList
          ⟨"note.txt".toList, 12, ⟨2024, 1, 2, 3, 4, 5, 0, 0⟩, false⟩ .searchFailed
        = some fileInfo
      ∧ processFile id (fun _ => true)
          (mainDirs [] ["organizer".toList, "in".toList, "out".toList]) fileInfo
        = [.MkdirAll "out/error".toList,
           .copyFile "in/sub/note.txt".toList "out/error/note.txt".toList] := by
  obtain ⟨fileInfo, hw, -, hp⟩ :=
    C7_unrecognized_destination id unicodeToLower_id_idem (fun _ => true) []
      ["organizer".toList, "in".toList, "out".toList] "in/sub/note.txt".toList
      ⟨"note.txt".toList, 12, ⟨2024, 1, 2, 3, 4, 5, 0, 0⟩, false⟩ .searchFailed rfl (by decide)
  refine ⟨fileInfo, hw, ?_⟩
  have hi : fileInfo.InputPath = "sub/note.txt".toList := by
    have h2 : walkFn id "in".toList "in/sub/note.txt".toList
        ⟨"note.txt".toList, 12, ⟨2024, 1, 2, 3, 4, 5, 0, 0⟩, false⟩ .searchFailed
        = some ⟨"note.txt".toList, "txt".toList, 12, "sub/note.txt".toList,
            ⟨2024, 1, 2, 3, 4, 5, 0, 0⟩, ⟨2024, 1, 2, 3, 4, 5, 0, 0⟩, []⟩ := by decide
    have h3 := hw.symm.trans h2
    injection h3 with h3
    rw [h3]
  rw [hp rfl, hi]
  decide

/-- C8: a regular file whose extension is `aae` in any letter case gets no
destination: the processing loop asks for no directory and no copy. -/
theorem C8_aae_skipped (tbl : Char → Char) (mkdirOk : List Char → Bool) (dirs : Dirs)
    (path : List Char) (info : FileStat) (content : Content)
    (hreg : info.IsDir = false)
    (hext : (TrimPrefix (Ext info.Name) ['.']).map lowerASCII = "aae".toList) :
    ∃ fileInfo,
      walkFn tbl dirs.inputDir path info content = some fileInfo
      ∧ destination tbl dirs fileInfo = none
      ∧ processFile tbl mkdirOk dirs fileInfo = [] := by
  obtain ⟨fileInfo, hw, -, hx, -, -, -⟩ :=
    walkFn_regular tbl dirs.inputDir path info content hreg
  have he : fileInfo.Extension = "aae".toList := by
    rw [hx]
    exact ToLower_of_lowerASCII tbl _ _ (by decide) hext
  have hd : destination tbl dirs fileInfo = none := by
    unfold destination
    rw [he]
    rfl
  refine ⟨fileInfo, hw, hd, ?_⟩
  unfold processFile
  simp only [hd]

/-- C8 at `clip.aae`: nothing is asked of the file system. -/
theorem C8_aae_skipped_witness :
    ∃ fileInfo,
      walkFn id "in".toList "in/clip.aae".toList
          ⟨"clip.aae".toList, 12, ⟨2024, 1, 2, 3, 4, 5, 0, 0⟩, false⟩ .searchFailed
        = some fileInfo
      ∧ destination id (mainDirs [] ["organizer".toList, "in".toList, "out".toList]) fileInfo
        = none
      ∧ processFile id (fun _ => true)
          (mainDirs [] ["organizer".toList, "in".toList, "out".toList]) fileInfo = [] :=
  C8_aae_skipped id (fun _ => true)
    (mainDirs [] ["organizer".toList, "in".toList, "out".toList]) "in/clip.aae".toList
    ⟨"clip.aae".toList, 12, ⟨2024, 1, 2, 3, 4, 5, 0, 0⟩, false⟩ .searchFailed rfl (by decide)

/-- C2: for a regular file with extension jpg, jpeg, heic or png, when
`DateTimeOriginal` is present with a string that parses, the captured time
and the timestamp in the destination name are that value, whatever `DateTime`
and `DateTimeDigitized` hold; and when `DateTimeOriginal` is absent and
`DateTime` is present with a string that parses, they are `DateTime`'s value,
whatever `DateTimeDigitized` holds. -/
theorem C2_priority (tbl : Char → Char) (home : List Char) (args : List (List Char))
    (path : List Char) (info : FileStat) (content : Content)
    (hreg : info.IsDir = false) (himg : fileExt tbl info.Name ∈ imageExtensions) :
    (∀ entry t, mapGet (exifExtract content) "DateTimeOriginal".toList = some entry →
        parsedValue entry = some t →
        ∃ fileInfo dir,
          walkFn tbl (mainDirs home args).inputDir path info content = some fileInfo
          ∧ fileInfo.CapturedTime = t
          ∧ destination tbl (mainDirs home args) fileInfo
              = some (dir, "snap-".toList ++ t.Format layoutStamp ++ "-".toList
                        ++ ToLower tbl (info.Name.filter (fun c => c ≠ '_'))))
    ∧ (∀ entry t, mapGet (exifExtract content) "DateTimeOriginal".toList = none →
        mapGet (exifExtract content) "DateTime".toList = some entry →
        parsedValue entry = some t →
        ∃ fileInfo dir,
          walkFn tbl (mainDirs home args).inputDir path info content = some fileInfo
          ∧ fileInfo.CapturedTime = t
          ∧ destination tbl (mainDirs home args) fileInfo
              = some (dir, "snap-".toList ++ t.Format layoutStamp ++ "-".toList
                        ++ ToLower tbl (info.Name.filter (fun c => c ≠ '_')))) := by
  obtain ⟨fileInfo, hw, hname, hx, -, -, hc⟩ :=
    walkFn_regular tbl (mainDirs home args).inputDir path info content hreg
  rw [if_pos himg] at hc
  have hmedia : fileInfo.Extension ∈ mediaExtensions := hx ▸ image_is_media _ himg
  have hd := destination_media tbl home args fileInfo hmedia
  constructor
  · intro entry t h1 hp
    have hct : fileInfo.CapturedTime = t := by
      rw [hc, capturedTime_of_firstPresent _ _ entry (Or.inl h1), hp]; rfl
    exact ⟨fileInfo, _, hw, hct, by rw [hd, hct, hname]⟩
  · intro entry t h1 h2 hp
    have hct : fileInfo.CapturedTime = t := by
      rw [hc, capturedTime_of_firstPresent _ _ entry (Or.inr (Or.inl ⟨h1, h2⟩)), hp]; rfl
    exact ⟨fileInfo, _, hw, hct, by rw [hd, hct, hname]⟩

/-- C2 at `IMG_0001.JPG` with `DateTime`, `DateTimeOriginal` and
`DateTimeDigitized` all parseable: the name carries `DateTimeOriginal`. -/
theorem C2_priority_witness :
    (sampleStat "IMG_0001.JPG".toList).IsDir = false
    ∧ fileExt id (sampleStat "IMG_0001.JPG".toList).Name ∈ imageExtensions
    ∧ ∃ fileInfo dir,
        walkFn id sampleDirs.inputDir "in/IMG_0001.JPG".toList
            (sampleStat "IMG_0001.JPG".toList) (.rawExif sampleTags) = some fileInfo
        ∧ fileInfo.CapturedTime = ⟨2023, 5, 14, 9, 30, 0, 0, 0⟩
        ∧ destination id sampleDirs fileInfo
            = some (dir, "snap-2023-05-14-09-30-00-img0001.jpg".toList) :=
  ⟨rfl, by decide,
   (C2_priority id [] ["organizer".toList, "in".toList, "out".toList]
      "in/IMG_0001.JPG".toList (sampleStat "IMG_0001.JPG".toList) (.rawExif sampleTags)
      rfl (by decide)).1
     (asciiEntry "IFD/Exif".toList 36867 "DateTimeOriginal".toList "2023:05:14 09:30:00".toList)
     ⟨2023, 5, 14, 9, 30, 0, 0, 0⟩ (by decide) (by decide)⟩

/-- C3 fails: in the mapping of `unsetClockTags`, `DateTimeOriginal` is present
and does not parse, `DateTime` is present and parses to 2023-05-14 09:30:00,
and the captured time of the record is the modification time. -/
theorem C3_counterexample :
    mapGet (exifExtract (.rawExif unsetClockTags)) "DateTimeOriginal".toList
      = some (asciiEntry "IFD/Exif".toList 36867 "DateTimeOriginal".toList
          "0000:00:00 00:00:00".toList)
    ∧ parsedValue (asciiEntry "IFD/Exif".toList 36867 "DateTimeOriginal".toList
          "0000:00:00 00:00:00".toList) = none
    ∧ mapGet (exifExtract (.rawExif unsetClockTags)) "DateTime".toList
      = some (asciiEntry "IFD".toList 306 "DateTime".toList "2023:05:14 09:30:00".toList)
    ∧ parsedValue (asciiEntry "IFD".toList 306 "DateTime".toList "2023:05:14 09:30:00".toList)
      = some ⟨2023, 5, 14, 9, 30, 0, 0, 0⟩
    ∧ (walkFn id sampleDirs.inputDir "in/IMG_0001.JPG".toList
          (sampleStat "IMG_0001.JPG".toList) (.rawExif unsetClockTags)).map
        (fun fileInfo => fileInfo.CapturedTime) = some sampleModTime
    ∧ sampleModTime ≠ ⟨2023, 5, 14, 9, 30, 0, 0, 0⟩ := by
  decide

/-- C3 as amended: the first candidate present in the mapping decides alone.
If its value is a string that parses, the captured time is that time; if not,
the captured time is the modification time, whatever the candidates after it
hold. -/
theorem C3_first_present_decides (exifData : ExifMap) (modTime : Time)
    (entry : ExifDataEntry) (hfirst : firstPresent exifData entry) :
    (∀ t, parsedValue entry = some t → capturedTime exifData modTime = t)
    ∧ (parsedValue entry = none → capturedTime exifData modTime = modTime) := by
  rw [capturedTime_of_firstPresent exifData modTime entry hfirst]
  constructor
  · intro t h; rw [h]; rfl
  · intro h; rw [h]; rfl

/-- C3 as amended, at `unsetClockTags`: the unparseable `DateTimeOriginal` is
the first present candidate, so the captured time is the modification time. -/
theorem C3_first_present_decides_witness :
    firstPresent (exifExtract (.rawExif unsetClockTags))
        (asciiEntry "IFD/Exif".toList 36867 "DateTimeOriginal".toList
          "0000:00:00 00:00:00".toList)
    ∧ capturedTime (exifExtract (.rawExif unsetClockTags)) sampleModTime = sampleModTime :=
  ⟨by decide,
   (C3_first_present_decides (exifExtract (.rawExif unsetClockTags)) sampleModTime
      (asciiEntry "IFD/Exif".toList 36867 "DateTimeOriginal".toList
        "0000:00:00 00:00:00".toList) (by decide)).2 (by decide)⟩

/-- C4: the captured time of a regular file is exactly its modification time
when its extension is not an image kind, or when every candidate present in
its mapping (none at all included) has a value that is not a string parseable
as `YYYY:MM:DD HH:MM:SS`. -/
theorem C4_fallback_to_modTime (tbl : Char → Char) (inputDir path : List Char)
    (info : FileStat) (content : Content) (hreg : info.IsDir = false)
    (h : fileExt tbl info.Name ∉ imageExtensions
      ∨ ∀ key ∈ candidates, ∀ entry, mapGet (exifExtract content) key = some entry →
          parsedValue entry = none) :
    ∃ fileInfo, walkFn tbl inputDir path info content = some fileInfo
      ∧ fileInfo.CapturedTime = info.ModTime := by
  obtain ⟨fileInfo, hw, -, -, -, -, hc⟩ := walkFn_regular tbl inputDir path info content hreg
  refine ⟨fileInfo, hw, ?_⟩
  rw [hc]
  split
  · rcases h with h | h
    · contradiction
    · exact capturedTime_of_none_parse _ _ h
  · rfl

/-- C4 at a picture whose only candidate is an all-zero `DateTimeOriginal`. -/
theorem C4_fallback_to_modTime_witness :
    ∃ fileInfo,
      walkFn id "in".toList "in/IMG_0001.JPG".toList (sampleStat "IMG_0001.JPG".toList)
        (.rawExif [asciiTag "IFD/Exif".toList 36867 "DateTimeOriginal".toList
          "0000:00:00 00:00:00".toList]) = some fileInfo
      ∧ fileInfo.CapturedTime = sampleModTime :=
  C4_fallback_to_modTime id "in".toList "in/IMG_0001.JPG".toList
    (sampleStat "IMG_0001.JPG".toList)
    (.rawExif [asciiTag "IFD/Exif".toList 36867 "DateTimeOriginal".toList
      "0000:00:00 00:00:00".toList]) rfl
    (Or.inr (by
      intro key hk entry he
      simp only [candidates, List.mem_cons, List.mem_singleton, List.not_mem_nil,
        or_false] at hk
      rcases hk with rfl | rfl | rfl
      · have h0 : mapGet (exifExtract (.rawExif [asciiTag "IFD/Exif".toList 36867
            "DateTimeOriginal".toList "0000:00:00 00:00:00".toList]))
            "DateTimeOriginal".toList
            = some (asciiEntry "IFD/Exif".toList 36867 "DateTimeOriginal".toList
                "0000:00:00 00:00:00".toList) := by decide
        rw [h0] at he
        cases he
        decide
      · have h0 : mapGet (exifExtract (.rawExif [asciiTag "IFD/Exif".toList 36867
            "DateTimeOriginal".toList "0000:00:00 00:00:00".toList]))
            "DateTime".toList = none := by decide
        rw [h0] at he
        cases he
      · have h0 : mapGet (exifExtract (.rawExif [asciiTag "IFD/Exif".toList 36867
            "DateTimeOriginal".toList "0000:00:00 00:00:00".toList]))
            "DateTimeDigitized".toList = none := by decide
        rw [h0] at he
        cases he))

/-- C5 fails: `clip.mov` carries a parseable `DateTimeOriginal` of 2023-05-14,
its modification time is 2024-01-02, and its bucket is `2024-01`, not
`2023-05`. -/
theorem C5_counterexample :
    fileExt id "clip.mov".toList ∈ mediaExtensions
    ∧ mapGet (exifExtract (.rawExif sampleTags)) "DateTimeOriginal".toList
      = some (asciiEntry "IFD/Exif".toList 36867 "DateTimeOriginal".toList
          "2023:05:14 09:30:00".toList)
    ∧ parsedValue (asciiEntry "IFD/Exif".toList 36867 "DateTimeOriginal".toList
          "2023:05:14 09:30:00".toList) = some ⟨2023, 5, 14, 9, 30, 0, 0, 0⟩
    ∧ (walkFn id sampleDirs.inputDir "in/clip.mov".toList (sampleStat "clip.mov".toList)
          (.rawExif sampleTags)).bind (destination id sampleDirs)
      = some ("out/output/2024-01".toList, "snap-2024-01-02-03-04-05-clip.mov".toList)
    ∧ Join [sampleDirs.outputDirRecognized,
        Time.Format ⟨2023, 5, 14, 9, 30, 0, 0, 0⟩ layoutYearMonth]
      = "out/output/2023-05".toList := by
  decide

/-- C5 as amended: for a regular file with extension jpg, jpeg, heic or png
whose first present candidate holds a string that parses, the bucket is the
year and month of that time; for a regular file with extension mov, mp4 or gif
the captured time is the modification time and the bucket its year and month,
whatever the content carries. -/
theorem C5_bucket_of_captured_time (tbl : Char → Char) (home : List Char)
    (args : List (List Char)) (path : List Char) (info : FileStat) (content : Content)
    (hreg : info.IsDir = false) :
    (fileExt tbl info.Name ∈ imageExtensions →
      ∀ entry t, firstPresent (exifExtract content) entry → parsedValue entry = some t →
        ∃ fileInfo name,
          walkFn tbl (mainDirs home args).inputDir path info content = some fileInfo
          ∧ destination tbl (mainDirs home args) fileInfo
              = some (Join [Join [(mainDirs home args).outputDir, "output".toList],
                        appendInt t.year 4 ++ "-".toList ++ appendInt t.month 2], name))
    ∧ (fileExt tbl info.Name ∈ ["mov".toList, "mp4".toList, "gif".toList] →
        ∃ fileInfo name,
          walkFn tbl (mainDirs home args).inputDir path info content = some fileInfo
          ∧ fileInfo.CapturedTime = info.ModTime
          ∧ destination tbl (mainDirs home args) fileInfo
              = some (Join [Join [(mainDirs home args).outputDir, "output".toList],
                        appendInt info.ModTime.year 4 ++ "-".toList
                          ++ appendInt info.ModTime.month 2], name)) := by
  obtain ⟨fileInfo, hw, -, hx, -, -, hc⟩ :=
    walkFn_regular tbl (mainDirs home args).inputDir path info content hreg
  constructor
  · intro himg entry t hfirst hp
    rw [if_pos himg, capturedTime_of_firstPresent _ _ entry hfirst, hp] at hc
    have hmedia : fileInfo.Extension ∈ mediaExtensions := hx ▸ image_is_media _ himg
    have hct : fileInfo.CapturedTime = t := hc
    refine ⟨fileInfo, "snap-".toList ++ fileInfo.CapturedTime.Format layoutStamp ++ "-".toList
      ++ ToLower tbl (fileInfo.Name.filter (fun c => c ≠ '_')), hw, ?_⟩
    rw [destination_media tbl home args fileInfo hmedia, Format_yearMonth, hct]
  · intro hvid
    have hnot : fileExt tbl info.Name ∉ imageExtensions := by
      simp only [List.mem_cons, List.mem_singleton, List.not_mem_nil, or_false] at hvid
      rcases hvid with h | h | h <;> rw [h] <;> decide
    have hmedia : fileInfo.Extension ∈ mediaExtensions := by
      rw [hx]
      simp only [List.mem_cons, List.mem_singleton, List.not_mem_nil, or_false] at hvid
      rcases hvid with h | h | h <;> rw [h] <;> decide
    rw [if_neg hnot] at hc
    refine ⟨fileInfo, "snap-".toList ++ fileInfo.CapturedTime.Format layoutStamp ++ "-".toList
      ++ ToLower tbl (fileInfo.Name.filter (fun c => c ≠ '_')), hw, hc, ?_⟩
    rw [destination_media tbl home args fileInfo hmedia, Format_yearMonth, hc]

/-- C5 as amended, at `IMG_0001.JPG` with the tags of `sampleTags`: the bucket
is `2023-05`, from `DateTimeOriginal`. -/
theorem C5_bucket_of_captured_time_witness :
    ∃ fileInfo name,
      walkFn id sampleDirs.inputDir "in/IMG_0001.JPG".toList
          (sampleStat "IMG_0001.JPG".toList) (.rawExif sampleTags) = some fileInfo
      ∧ destination id sampleDirs fileInfo = some ("out/output/2023-05".toList, name) :=
  (C5_bucket_of_captured_time id [] ["organizer".toList, "in".toList, "out".toList]
      "in/IMG_0001.JPG".toList (sampleStat "IMG_0001.JPG".toList) (.rawExif sampleTags)
      rfl).1 (by decide)
    (asciiEntry "IFD/Exif".toList 36867 "DateTimeOriginal".toList "2023:05:14 09:30:00".toList)
    ⟨2023, 5, 14, 9, 30, 0, 0, 0⟩ (by decide) (by decide)

/-- C6 at its failing inputs. An undefined-type tag whose decode fails
unexpectedly is visited before a `DateTimeOriginal` tag that decodes on its
own: the visitor by itself would recover and return no error, but the
traversal ends at the failing tag and the returned mapping has no
`DateTimeOriginal`. The same holds when the first tag is one whose value
cannot be formatted: the visitor returns the error and the traversal ends.
Only a tag visited before the failing one is kept. -/
theorem C6_traversal_ends_at_failing_tag :
    visitor [] panickingTag = ([], none)
    ∧ visitor [] (asciiTag "IFD/Exif".toList 36867 "DateTimeOriginal".toList
          "2023:05:14 09:30:00".toList)
      = ([("DateTimeOriginal".toList,
            asciiEntry "IFD/Exif".toList 36867 "DateTimeOriginal".toList
              "2023:05:14 09:30:00".toList)], none)
    ∧ mapGet (exifExtract (.rawExif [panickingTag,
          asciiTag "IFD/Exif".toList 36867 "DateTimeOriginal".toList
            "2023:05:14 09:30:00".toList])) "DateTimeOriginal".toList = none
    ∧ visitor [] unformattableTag = ([], some .formatting)
    ∧ mapGet (exifExtract (.rawExif [unformattableTag,
          asciiTag "IFD/Exif".toList 36867 "DateTimeOriginal".toList
            "2023:05:14 09:30:00".toList])) "DateTimeOriginal".toList = none
    ∧ mapGet (exifExtract (.rawExif [
          asciiTag "IFD/Exif".toList 36867 "DateTimeOriginal".toList
            "2023:05:14 09:30:00".toList, panickingTag])) "DateTimeOriginal".toList
      = some (asciiEntry "IFD/Exif".toList 36867 "DateTimeOriginal".toList
          "2023:05:14 09:30:00".toList) := by
  decide

/-- C10 fails for the root `./pics`: `Walk` visits `a.jpg` as `pics/a.jpg`,
the root is no prefix of it, the record's relative path is `pics/a.jpg`, and
the copy step reads `pics/pics/a.jpg`. It fails for the root `.` too: `Walk`
visits `.hidden.jpg` under its own name, the root `.` is trimmed off it as a
prefix, and the copy step reads `hidden.jpg`. For the root `pics` the relative
path is `a.jpg` and the copy step reads `pics/a.jpg`. -/
theorem C10_dot_slash_root :
    walkPath "./pics".toList ["a.jpg".toList] = "pics/a.jpg".toList
    ∧ (walkFn id "./pics".toList (walkPath "./pics".toList ["a.jpg".toList])
          (sampleStat "a.jpg".toList) .searchFailed).map (fun fileInfo => fileInfo.InputPath)
      = some "pics/a.jpg".toList
    ∧ Join ["./pics".toList, "pics/a.jpg".toList] = "pics/pics/a.jpg".toList
    ∧ (walkFn id "./pics".toList (walkPath "./pics".toList ["a.jpg".toList])
          (sampleStat "a.jpg".toList) .searchFailed).map
        (processFile id (fun _ => true)
          (mainDirs [] ["organizer".toList, "./pics".toList, "out".toList]))
      = some [.MkdirAll "out/output/2024-01".toList,
              .copyFile "pics/pics/a.jpg".toList
                "out/output/2024-01/snap-2024-01-02-03-04-05-a.jpg".toList]
    ∧ walkPath ".".toList [".hidden.jpg".toList] = ".hidden.jpg".toList
    ∧ (walkFn id ".".toList (walkPath ".".toList [".hidden.jpg".toList])
          (sampleStat ".hidden.jpg".toList) .searchFailed).map
        (processFile id (fun _ => true)
          (mainDirs [] ["organizer".toList, ".".toList, "out".toList]))
      = some [.MkdirAll "out/output/2024-01".toList,
              .copyFile "hidden.jpg".toList
                "out/output/2024-01/snap-2024-01-02-03-04-05-.hidden.jpg".toList]
    ∧ walkPath "pics".toList ["a.jpg".toList] = "pics/a.jpg".toList
    ∧ (walkFn id "pics".toList (walkPath "pics".toList ["a.jpg".toList])
          (sampleStat "a.jpg".toList) .searchFailed).map
        (processFile id (fun _ => true)
          (mainDirs [] ["organizer".toList, "pics".toList, "out".toList]))
      = some [.MkdirAll "out/output/2024-01".toList,
              .copyFile "pics/a.jpg".toList
                "out/output/2024-01/snap-2024-01-02-03-04-05-a.jpg".toList] := by
  decide

/-- C9 fails: two `mov` files modified one second apart across the end of
daylight time fall in the same bucket, and the name of the earlier one is not
smaller than the name of the later one. -/
theorem C9_counterexample :
    beforeFallBack.valid ∧ afterFallBack.valid
    ∧ beforeFallBack.unixNano + 1000000000 ≤ afterFallBack.unixNano
    ∧ (walkFn id sampleDirs.inputDir "in/a.mov".toList
          ⟨"a.mov".toList, 12, beforeFallBack, false⟩ .searchFailed).bind
        (destination id sampleDirs)
      = some ("out/output/2023-11".toList, "snap-2023-11-05-01-59-59-a.mov".toList)
    ∧ (walkFn id sampleDirs.inputDir "in/b.mov".toList
          ⟨"b.mov".toList, 12, afterFallBack, false⟩ .searchFailed).bind
        (destination id sampleDirs)
      = some ("out/output/2023-11".toList, "snap-2023-11-05-01-00-00-b.mov".toList)
    ∧ Less "snap-2023-11-05-01-59-59-a.mov".toList "snap-2023-11-05-01-00-00-b.mov".toList
      = false := by
  decide

/-- C9 as amended: for two media records whose captured times are well formed,
carry the same UTC offset and print the same year-month bucket, if the first
time is at least one second before the second, the two records go to the same
directory and the first destination name is strictly smaller than the second
in byte order, whatever the two original names are. -/
theorem C9_name_order_same_offset (tbl : Char → Char) (dirs : Dirs) (f1 f2 : FileInfo)
    (hm1 : ToLower tbl f1.Extension ∈ mediaExtensions)
    (hm2 : ToLower tbl f2.Extension ∈ mediaExtensions)
    (hv1 : f1.CapturedTime.valid) (hv2 : f2.CapturedTime.valid)
    (hoff : f1.CapturedTime.offset = f2.CapturedTime.offset)
    (hbucket : f1.CapturedTime.Format layoutYearMonth = f2.CapturedTime.Format layoutYearMonth)
    (hlt : f1.CapturedTime.unixNano + 1000000000 ≤ f2.CapturedTime.unixNano) :
    ∃ dir n1 n2,
      destination tbl dirs f1 = some (dir, n1)
      ∧ destination tbl dirs f2 = some (dir, n2)
      ∧ Less n1 n2 = true := by
  refine ⟨Join [dirs.outputDirRecognized, f1.CapturedTime.Format layoutYearMonth],
    "snap-".toList ++ f1.CapturedTime.Format layoutStamp ++ "-".toList
      ++ ToLower tbl (ReplaceAll f1.Name "_".toList []),
    "snap-".toList ++ f2.CapturedTime.Format layoutStamp ++ "-".toList
      ++ ToLower tbl (ReplaceAll f2.Name "_".toList []),
    destination_of_media tbl dirs f1 hm1, ?_, ?_⟩
  · rw [destination_of_media tbl dirs f2 hm2, hbucket]
  · simp only [List.append_assoc]
    rw [Less_append_left]
    exact stamp_Less _ _ hv1 hv2 hoff hbucket hlt _ _

/-- C9 as amended, at `z.jpg` captured 2023-05-14 09:30:00 and `a.jpg`
captured one second later, both in UTC. -/
theorem C9_name_order_same_offset_witness :
    ∃ dir n1 n2,
      destination id sampleDirs
          ⟨"z.jpg".toList, "jpg".toList, 12, "z.jpg".toList, sampleModTime,
            ⟨2023, 5, 14, 9, 30, 0, 0, 0⟩, []⟩ = some (dir, n1)
      ∧ destination id sampleDirs
          ⟨"a.jpg".toList, "jpg".toList, 12, "a.jpg".toList, sampleModTime,
            ⟨2023, 5, 14, 9, 30, 1, 0, 0⟩, []⟩ = some (dir, n2)
      ∧ Less n1 n2 = true :=
  C9_name_order_same_offset id sampleDirs
    ⟨"z.jpg".toList, "jpg".toList, 12, "z.jpg".toList, sampleModTime,
      ⟨2023, 5, 14, 9, 30, 0, 0, 0⟩, []⟩
    ⟨"a.jpg".toList, "jpg".toList, 12, "a.jpg".toList, sampleModTime,
      ⟨2023, 5, 14, 9, 30, 1, 0, 0⟩, []⟩
    (by decide) (by decide) (by decide) (by decide) rfl (by decide) (by decide)

end Organizer
